import Mathlib

/-!
Verification of the salvus spectral-element engine specification against the
source. Each section embeds one cluster of source functions (Order2Newmark,
Options, the solve loop, the reference tables, the hexahedral and triangular
element operators) as executable Lean definitions and proves or refutes the
corresponding specified properties.

Conventions: PETSc/Eigen double vectors are modelled as exact rational
vectors; a distributed global vector is a function from (global) indices to
rationals; the field dictionary of the time integrator is a finite map from
field names to such vectors.
-/

/-! ## Field dictionary (Order2Newmark.cpp)

A global field vector, indexed by global DoF number. -/
def Vec : Type := Nat → ℚ

/-- The time integrator field dictionary: field name to (global) vector,
mirroring FieldDict = map from std::string to field. -/
def FieldDict : Type := String → Option Vec

/-- Pointwise update of one key of the dictionary. -/
def updField (fs : FieldDict) (k : String) (x : Vec) : FieldDict :=
  fun q => if q = k then some x else fs q

/-- PETSc VecAXPBYPCZ(z, a, b, c, x, y) computes z = a x + b y + c z
componentwise; this returns the new z. -/
def vecAXPBYPCZ (a b c : ℚ) (x y z : Vec) : Vec :=
  fun i => a * x i + b * y i + c * z i

/-- The four parallel name tables of Order2Newmark::takeTimeStep, read off by
position i = 0..3: (recognized_acl_[i], recognized_acl[i], recognized_vel[i],
recognized_dsp[i]). The source lists are
recognized_acl_ = ax_, ay_, ax_, a_ ; recognized_acl = ax, ay, ax, a ;
recognized_vel = vx, vy, vx, v ; recognized_dsp = ux, uy, ux, u.
Note the third column repeats the x names instead of naming z. -/
def recognizedTriples : List (String × String × String × String) :=
  [("ax_", "ax", "vx", "ux"),
   ("ay_", "ay", "vy", "uy"),
   ("ax_", "ax", "vx", "ux"),
   ("a_",  "a",  "v",  "u")]

/-- One iteration of the advance loop of Order2Newmark::takeTimeStep: if the
acceleration name is present, run the two VecAXPBYPCZ updates (velocity, then
displacement using the new velocity) and the VecCopy into the history field.
The source reads the other three fields through map operator access, which
presumes their presence; a dictionary missing them is left unchanged here. -/
def advanceTriple (dt : ℚ) (fs : FieldDict) :
    String × String × String × String → FieldDict :=
  fun names =>
    match names with
    | (na_, na, nv, nu) =>
      match fs na, fs na_, fs nv, fs nu with
      | some A, some A_, some V, some U =>
        let aclFactor : ℚ := (1/2) * dt
        let dspFactor : ℚ := (1/2) * (dt * dt)
        let Vnew := vecAXPBYPCZ aclFactor aclFactor 1 A A_ V
        let Unew := vecAXPBYPCZ dt dspFactor 1 Vnew A U
        updField (updField (updField fs nv Vnew) nu Unew) na_ A
      | _, _, _, _ => fs

/-- Order2Newmark::takeTimeStep: advance every recognized triple in table
order, then advance the time. -/
def takeTimeStep (dt : ℚ) (fields : FieldDict) (time : ℚ) :
    FieldDict × ℚ :=
  (recognizedTriples.foldl (advanceTriple dt) fields, time + dt)

/-- A constant global vector. -/
def constVec (c : ℚ) : Vec := fun _ => c

/-- Dictionary built from an association list (first binding wins). -/
def dictOfList (l : List (String × Vec)) : FieldDict :=
  fun k => (l.find? (fun p => p.1 = k)).map Prod.snd

/-- A 3D-elastic field dictionary (the field set Order2Newmark registers for
physics 3delastic), with zero displacements, velocities and histories and
unit accelerations on all three components. -/
def elasticDict3D : FieldDict :=
  dictOfList
    [("ux", constVec 0), ("vx", constVec 0), ("ax", constVec 1), ("ax_", constVec 0),
     ("uy", constVec 0), ("vy", constVec 0), ("ay", constVec 1), ("ay_", constVec 0),
     ("uz", constVec 0), ("vz", constVec 0), ("az", constVec 1), ("az_", constVec 0)]

/-- C1: takeTimeStep is claimed to advance, once each, every recognized
triple present, the z-triple included. On a 3D-elastic dictionary with zero
displacement, velocity and history and unit acceleration in all components,
one step with dt = 1 leaves the z fields untouched (a single Newmark update
would give uz = 1, vz = 1/2, az_ = 1) and advances the x-triple twice
(ux = 3, vx = 3/2 instead of ux = 1, vx = 1/2), because the recognized-name
tables repeat the x names in place of the z names. The y-triple shows the
value a single update produces. -/
theorem c1_takeTimeStep_z_triple_skipped :
    (((takeTimeStep 1 elasticDict3D 0).1 "uz").map (fun v => v 0) = some 0) ∧
    (((takeTimeStep 1 elasticDict3D 0).1 "vz").map (fun v => v 0) = some 0) ∧
    (((takeTimeStep 1 elasticDict3D 0).1 "az_").map (fun v => v 0) = some 0) ∧
    (((takeTimeStep 1 elasticDict3D 0).1 "ux").map (fun v => v 0) = some 3) ∧
    (((takeTimeStep 1 elasticDict3D 0).1 "vx").map (fun v => v 0) = some (3/2)) ∧
    (((takeTimeStep 1 elasticDict3D 0).1 "uy").map (fun v => v 0) = some 1) ∧
    (((takeTimeStep 1 elasticDict3D 0).1 "vy").map (fun v => v 0) = some (1/2)) := by
  refine ⟨?_, ?_, ?_, ?_, ?_, ?_, ?_⟩ <;>
    simp [takeTimeStep, recognizedTriples, advanceTriple, elasticDict3D, dictOfList,
      updField, vecAXPBYPCZ, constVec, List.find?] <;>
    norm_num

/-! ## Mass assembly and inverse mass (Order2Newmark.cpp) -/

/-- An element as seen by the mass assembly: its closure size, the map from
element-closure position to global DoF index (the effect of
DMPlexVecSetClosure with ADD_VALUES followed by DMLocalToGlobal with
ADD_VALUES), and its lumped elemental mass vector
(elm->assembleElementMassMatrix()). -/
structure MassElem : Type where
  nloc : Nat
  cls : Nat → Nat
  mass : Nat → ℚ

/-- The contribution of one element to global DoF g under ADD injection. -/
def elemContrib (e : MassElem) (g : Nat) : ℚ :=
  ∑ j ∈ Finset.range e.nloc, if e.cls j = g then e.mass j else 0

/-- The loop over elements summing elemental mass matrices with ADD_VALUES. -/
def sumAssembledMass (elems : List MassElem) : Vec :=
  elems.foldl (fun acc e => fun g => acc g + elemContrib e g) (fun _ => 0)

/-- Order2Newmark::physicsToFields: the fields registered for each physics
name, in loop order; an unrecognized physics throws. -/
def physicsToFields : List String → Except String (List String)
  | [] => .ok []
  | p :: rest => do
    let cur ←
      if p = "fluid" then
        Except.ok ["u", "v", "a", "a_"]
      else if p = "2delastic" then
        Except.ok ["ux", "vx", "ax", "ax_", "uy", "vy", "ay", "ay_"]
      else if p = "3delastic" then
        Except.ok ["ux", "vx", "ax", "ax_", "uy", "vy", "ay", "ay_",
                   "uz", "vz", "az", "az_"]
      else
        Except.error "Physics not supported by Order2Newmark. Choose fluid, 2delastic, 3delastic"
    let tail ← physicsToFields rest
    .ok (cur ++ tail)

/-- The zero vector a freshly created PETSc field holds. -/
def zeroVec : Vec := fun _ => 0

/-- Order2Newmark::initializeGlobalDofs: create the mi field, sum the
elemental mass matrices into it with ADD, take the componentwise reciprocal
(VecReciprocal, which maps a zero entry to zero, as rational inverse does),
then register one zeroed global vector per physics field; an empty physics
set throws. -/
def initializeGlobalDofs (elems : List MassElem) (physics : List String) :
    Except String FieldDict := do
  let mi : Vec := fun g => (sumAssembledMass elems g)⁻¹
  let start : FieldDict := updField (fun _ => none) "mi" mi
  if physics.isEmpty then
    .error "No global fields defined for newmark time stepper"
  else
    let names ← physicsToFields physics
    .ok (names.foldl (fun fs n => updField fs n zeroVec) start)

/-- One iteration of the loop in Order2Newmark::applyInverseMassMatrix:
if field f is present, replace it by the pointwise product of mi with it
(VecPointwiseMult(f, mi, f)); the asserted presence of mi is modelled by
skipping when mi is absent. -/
def aimmStep (fs : FieldDict) (f : String) : FieldDict :=
  match fs "mi", fs f with
  | some mi, some af => updField fs f (fun i => mi i * af i)
  | _, _ => fs

/-- Order2Newmark::applyInverseMassMatrix: the loop for f in ax, ay, az, a. -/
def applyInverseMassMatrix (fields : FieldDict) : FieldDict :=
  (["ax", "ay", "az", "a"] : List String).foldl aimmStep fields

/-- Lookup through the registration fold is unchanged for keys not
registered. -/
theorem foldl_updField_notMem (names : List String) (fs : FieldDict) (k : String)
    (h : k ∉ names) :
    (names.foldl (fun fs n => updField fs n zeroVec) fs) k = fs k := by
  induction names generalizing fs with
  | nil => rfl
  | cons n rest ih =>
    have hk : k ≠ n := fun hkn => h (hkn ▸ List.mem_cons_self n rest)
    have hrest : k ∉ rest := fun hr => h (List.mem_cons_of_mem n hr)
    simp only [List.foldl_cons]
    rw [ih _ hrest]
    simp [updField, hk]

/-- The field names produced by physicsToFields never include mi. -/
theorem physicsToFields_no_mi (physics : List String) (names : List String)
    (h : physicsToFields physics = .ok names) : "mi" ∉ names := by
  induction physics generalizing names with
  | nil =>
    simp only [physicsToFields] at h
    cases h
    simp
  | cons p rest ih =>
    simp only [physicsToFields, bind, Except.bind] at h
    by_cases h1 : p = "fluid" <;> by_cases h2 : p = "2delastic" <;>
      by_cases h3 : p = "3delastic" <;>
      simp only [h1, h2, h3, if_true, if_false, reduceIte] at h <;>
      first
      | (cases hr : physicsToFields rest with
         | error e => rw [hr] at h; cases h
         | ok tail =>
           rw [hr] at h
           cases h
           have := ih tail hr
           simp_all)
      | cases h

/-- The assembly fold equals the sum of the elementwise contributions. -/
theorem sumAssembledMass_eq (elems : List MassElem) (g : Nat) :
    sumAssembledMass elems g = (elems.map (fun e => elemContrib e g)).sum := by
  suffices h : ∀ (v : Vec),
      (elems.foldl (fun acc e => fun g => acc g + elemContrib e g) v) g
        = v g + (elems.map (fun e => elemContrib e g)).sum by
    simpa [sumAssembledMass] using h (fun _ => 0)
  induction elems with
  | nil => intro v; simp
  | cons e rest ih =>
    intro v
    simp only [List.foldl_cons, List.map_cons, List.sum_cons]
    rw [ih]
    ring

/-- Looking up a key other than the stepped field is unchanged by aimmStep. -/
theorem aimmStep_lookup_ne (fs : FieldDict) (f k : String) (h : k ≠ f) :
    aimmStep fs f k = fs k := by
  unfold aimmStep
  cases fs "mi" <;> cases fs f <;> simp [updField, h]

/-- Looking up the stepped field after aimmStep, when mi is present. -/
theorem aimmStep_lookup_self (fs : FieldDict) (f : String) (mi : Vec)
    (hmi : fs "mi" = some mi) :
    aimmStep fs f f = (fs f).map (fun af => fun i => mi i * af i) := by
  unfold aimmStep
  rw [hmi]
  cases h : fs f <;> simp [updField, h]

/-- C4: after initializeGlobalDofs the mi field is the componentwise
reciprocal of the ADD-assembled lumped mass vector, and
applyInverseMassMatrix multiplies exactly the acceleration fields present
among ax, ay, az, a by mi componentwise, leaving every other field (mi
itself included) unchanged. -/
theorem c4_inverse_mass (elems : List MassElem) (physics : List String) :
    (∀ fields, initializeGlobalDofs elems physics = .ok fields →
      ∀ g, (fields "mi").map (fun v => v g)
        = some (((elems.map (fun e => elemContrib e g)).sum)⁻¹)) ∧
    (∀ (gs : FieldDict) (mi : Vec), gs "mi" = some mi →
      (∀ f ∈ (["ax", "ay", "az", "a"] : List String),
        (applyInverseMassMatrix gs) f = (gs f).map (fun af => fun i => mi i * af i)) ∧
      (∀ k, k ∉ (["ax", "ay", "az", "a"] : List String) →
        (applyInverseMassMatrix gs) k = gs k)) := by
  constructor
  · intro fields hok g
    simp only [initializeGlobalDofs, bind, Except.bind] at hok
    split at hok
    · cases hok
    · cases hpf : physicsToFields physics with
      | error e => rw [hpf] at hok; cases hok
      | ok names =>
        rw [hpf] at hok
        cases hok
        rw [foldl_updField_notMem names _ "mi" (physicsToFields_no_mi physics names hpf)]
        simp [updField, sumAssembledMass_eq]
  · intro gs mi hmi
    have hne1 : ("mi" : String) ≠ "ax" := by decide
    have hne2 : ("mi" : String) ≠ "ay" := by decide
    have hne3 : ("mi" : String) ≠ "az" := by decide
    have hne4 : ("mi" : String) ≠ "a" := by decide
    have hfold : applyInverseMassMatrix gs
        = aimmStep (aimmStep (aimmStep (aimmStep gs "ax") "ay") "az") "a" := rfl
    have hmi1 : (aimmStep gs "ax") "mi" = some mi := by
      rw [aimmStep_lookup_ne gs "ax" "mi" hne1]; exact hmi
    have hmi2 : (aimmStep (aimmStep gs "ax") "ay") "mi" = some mi := by
      rw [aimmStep_lookup_ne _ "ay" "mi" hne2]; exact hmi1
    have hmi3 : (aimmStep (aimmStep (aimmStep gs "ax") "ay") "az") "mi" = some mi := by
      rw [aimmStep_lookup_ne _ "az" "mi" hne3]; exact hmi2
    constructor
    · intro f hf
      simp only [List.mem_cons, List.not_mem_nil, or_false] at hf
      rcases hf with h | h | h | h
      · subst h
        rw [hfold,
          aimmStep_lookup_ne _ "a" "ax" (by decide),
          aimmStep_lookup_ne _ "az" "ax" (by decide),
          aimmStep_lookup_ne _ "ay" "ax" (by decide),
          aimmStep_lookup_self gs "ax" mi hmi]
      · subst h
        rw [hfold,
          aimmStep_lookup_ne _ "a" "ay" (by decide),
          aimmStep_lookup_ne _ "az" "ay" (by decide),
          aimmStep_lookup_self _ "ay" mi hmi1,
          aimmStep_lookup_ne _ "ax" "ay" (by decide)]
      · subst h
        rw [hfold,
          aimmStep_lookup_ne _ "a" "az" (by decide),
          aimmStep_lookup_self _ "az" mi hmi2,
          aimmStep_lookup_ne _ "ay" "az" (by decide),
          aimmStep_lookup_ne _ "ax" "az" (by decide)]
      · subst h
        rw [hfold,
          aimmStep_lookup_self _ "a" mi hmi3,
          aimmStep_lookup_ne _ "az" "a" (by decide),
          aimmStep_lookup_ne _ "ay" "a" (by decide),
          aimmStep_lookup_ne _ "ax" "a" (by decide)]
    · intro k hk
      have h1 : k ≠ "ax" := fun h => hk (by simp [h])
      have h2 : k ≠ "ay" := fun h => hk (by simp [h])
      have h3 : k ≠ "az" := fun h => hk (by simp [h])
      have h4 : k ≠ "a" := fun h => hk (by simp [h])
      rw [hfold,
        aimmStep_lookup_ne _ "a" k h4,
        aimmStep_lookup_ne _ "az" k h3,
        aimmStep_lookup_ne _ "ay" k h2,
        aimmStep_lookup_ne _ "ax" k h1]

/-- A one-element mesh whose single closure point holds mass 2. -/
def demoElems : List MassElem := [⟨1, fun j => j, fun _ => 2⟩]

/-- A dictionary holding an inverted mass and one acceleration field. -/
def demoDict : FieldDict := dictOfList [("mi", constVec (1/2)), ("a", constVec 4)]

/-- Witness for c4_inverse_mass at a concrete one-element fluid setup. -/
theorem c4_inverse_mass_witness :
    ∃ fields, initializeGlobalDofs demoElems ["fluid"] = .ok fields ∧
      (fields "mi").map (fun v => v 0) = some ((2 : ℚ)⁻¹) ∧
      (applyInverseMassMatrix demoDict) "a"
        = (demoDict "a").map (fun af => fun i => constVec (1/2) i * af i) ∧
      (applyInverseMassMatrix demoDict) "u" = demoDict "u" := by
  refine ⟨_, rfl, ?_, ?_, ?_⟩
  · have h := (c4_inverse_mass demoElems ["fluid"]).1 _ rfl 0
    rw [h]
    simp [demoElems, elemContrib]
  · have h2 := (c4_inverse_mass demoElems ["fluid"]).2 demoDict (constVec (1/2)) rfl
    exact h2.1 "a" (by simp)
  · have h2 := (c4_inverse_mass demoElems ["fluid"]).2 demoDict (constVec (1/2)) rfl
    exact h2.2 "u" (by simp)

/-! ## Options::setOptions (source reader and Newmark schedule) -/

/-- The source-type validation in Options::setOptions, as written: after
reading the root attribute, the reader throws when
not (type equals file) or not (type equals ricker) holds, unless testing
is set. -/
def sourceTypeCheck (testing : Bool) (sourceType : String) : Except String String :=
  if ¬(sourceType = "file") ∨ ¬(sourceType = "ricker") then
    if ¬testing then
      .error ("Source type " ++ sourceType ++ " not recognized.")
    else
      .ok sourceType
  else
    .ok sourceType

/-- C2: with testing disabled the reader is claimed to accept ricker and
file; the disjunction in the source is a tautology, so both are rejected
(as is every other string). -/
theorem c2_source_type_always_rejected :
    sourceTypeCheck false "ricker" = .error "Source type ricker not recognized." ∧
    sourceTypeCheck false "file" = .error "Source type file not recognized." ∧
    sourceTypeCheck false "bogus" = .error "Source type bogus not recognized." := by
  refine ⟨?_, ?_, ?_⟩ <;> rfl

/-- The duration / time-step adjustment in Options::setOptions: when both
flags are supplied, and the duration is positive, the step count becomes
the ceiling of duration over the requested step and the stored step is the
duration divided by that count; otherwise the requested step is stored and
no count is computed in this branch. -/
def setTimeStepOptions (duration dtRequested : ℚ) : ℚ × Option ℤ :=
  if 0 < duration then
    let numTimeSteps : ℤ := ⌈duration / dtRequested⌉
    (duration / (numTimeSteps : ℚ), some numTimeSteps)
  else
    (dtRequested, none)

/-- C9: with positive duration and positive requested step, setOptions
stores the ceiling step count, and the stored step never exceeds the
requested one while the count times the stored step covers the duration
exactly. -/
theorem c9_time_step_adjustment (d dt : ℚ) (hd : 0 < d) (hdt : 0 < dt) :
    setTimeStepOptions d dt = (d / ((⌈d / dt⌉ : ℤ) : ℚ), some ⌈d / dt⌉) ∧
    d / ((⌈d / dt⌉ : ℤ) : ℚ) ≤ dt ∧
    ((⌈d / dt⌉ : ℤ) : ℚ) * (d / ((⌈d / dt⌉ : ℤ) : ℚ)) = d ∧
    0 < ⌈d / dt⌉ := by
  have hpos : 0 < ⌈d / dt⌉ := Int.ceil_pos.mpr (div_pos hd hdt)
  have hposq : (0 : ℚ) < ((⌈d / dt⌉ : ℤ) : ℚ) := by exact_mod_cast hpos
  refine ⟨by simp [setTimeStepOptions, hd], ?_, ?_, hpos⟩
  · rw [div_le_iff₀ hposq]
    calc d = (d / dt) * dt := by field_simp
    _ ≤ ((⌈d / dt⌉ : ℤ) : ℚ) * dt := by
        have := Int.le_ceil (d / dt)
        exact mul_le_mul_of_nonneg_right this (le_of_lt hdt)
    _ = dt * ((⌈d / dt⌉ : ℤ) : ℚ) := by ring
  · field_simp

/-- Witness for c9_time_step_adjustment with duration 1 and step 3/10: the
count becomes 4 and the stored step 1/4. -/
theorem c9_time_step_adjustment_witness :
    (0 : ℚ) < 1 ∧ (0 : ℚ) < 3/10 ∧
    (setTimeStepOptions 1 (3/10) = (1/4, some 4) ∧
      (1 : ℚ)/4 ≤ 3/10 ∧ (4 : ℚ) * (1/4) = 1) := by
  have hceil : (⌈(1 : ℚ) / (3/10)⌉ : ℤ) = 4 := by
    rw [Int.ceil_eq_iff]
    norm_num
  have h := c9_time_step_adjustment 1 (3/10) (by norm_num) (by norm_num)
  refine ⟨by norm_num, by norm_num, ?_, ?_, ?_⟩
  · rw [h.1, hceil]; norm_num
  · have := h.2.1; rw [hceil] at this; simpa using this
  · norm_num

/-! ## The solve loop (solve_vs_exact) -/

/-- The externally visible operations of one iteration of the while loop of
solve_vs_exact, in program order. The per-element kernel loop (field
extraction, computeStiffnessTerm, addFieldFromElement into the local
partition) is one event; the per-element Dirichlet loop is one event. -/
inductive SolveEvent : Type where
  | checkOutField (f : String)
  | zeroField (f : String)
  | elementKernels
  | applyDirichlet (f : String)
  | checkInFieldBegin (f : String)
  | checkInFieldEnd (f : String)
  | applyInverseMass
  | advanceField
  | saveFrame
deriving DecidableEq

/-- One iteration of the acoustic solve loop (pull fields u, push fields a),
transcribed from the body of solve_vs_exact. -/
def solveStepTrace : List SolveEvent :=
  [.checkOutField "u",
   .zeroField "a",
   .elementKernels,
   .applyDirichlet "a",
   .checkInFieldBegin "a",
   .checkInFieldEnd "a",
   .applyInverseMass,
   .advanceField,
   .saveFrame]

/-- C3 counterexample: in the loop body the Dirichlet application on the
pushed acceleration field does not come after the end of the global
scatter-add; it precedes checkInFieldEnd (and even checkInFieldBegin). -/
theorem c3_dirichlet_before_assembly :
    ¬ (solveStepTrace.indexOf (.checkInFieldEnd "a")
        < solveStepTrace.indexOf (.applyDirichlet "a")) := by
  decide

/-- C3 amended: the Dirichlet application follows the element kernel loop
(the full local stiffness sum) but precedes the global scatter-add; only
the mass solve and the Newmark advance observe the fully assembled
residual. -/
theorem c3_dirichlet_order :
    solveStepTrace.indexOf .elementKernels
      < solveStepTrace.indexOf (.applyDirichlet "a") ∧
    solveStepTrace.indexOf (.applyDirichlet "a")
      < solveStepTrace.indexOf (.checkInFieldBegin "a") ∧
    solveStepTrace.indexOf (.checkInFieldBegin "a")
      < solveStepTrace.indexOf (.checkInFieldEnd "a") ∧
    solveStepTrace.indexOf (.checkInFieldEnd "a")
      < solveStepTrace.indexOf .applyInverseMass ∧
    solveStepTrace.indexOf .applyInverseMass
      < solveStepTrace.indexOf .advanceField := by
  decide

/-! ## Reference-table accessors (QuadNew and Hexahedra) -/

/-- The shape of an Eigen vector returned by a table accessor: its
allocated size, and whether any branch of the if-chain wrote its entries. -/
structure TableVec : Type where
  size : ℤ
  written : Bool
deriving DecidableEq

/-- The if-chain of QuadNew GllPointsForOrder writes the allocated vector
exactly when one of the branches order == 1 .. order == 10 fires. -/
def quadTableWritten (order : ℤ) : Bool :=
  order == 1 || order == 2 || order == 3 || order == 4 || order == 5 ||
  order == 6 || order == 7 || order == 8 || order == 9 || order == 10

/-- QuadNew GllPointsForOrder (the weight and closure accessors have the
same structure): allocate order + 1 entries, fill them if a branch fires,
and return the vector unconditionally; there is no rejection path. -/
def quadGllPointsForOrder (order : ℤ) : TableVec :=
  { size := order + 1, written := quadTableWritten order }

/-- The if-chain of Hexahedra GllPointsForOrder covers orders 1..7, plus 8
and 9 when the build sets HEX_MAX_ORDER above 7. -/
def hexTableWritten (maxOrder order : ℤ) : Bool :=
  order == 1 || order == 2 || order == 3 || order == 4 || order == 5 ||
  order == 6 || order == 7 ||
  (decide (7 < maxOrder) && (order == 8 || order == 9))

/-- Hexahedra GllPointsForOrder (GllIntegrationWeights is identical):
throw for orders above mMaxOrder, otherwise return the allocated vector,
written only when a branch fired. -/
def hexGllPointsForOrder (maxOrder order : ℤ) : Except String TableVec :=
  if maxOrder < order then
    .error "Polynomial order not supported"
  else
    .ok { size := order + 1, written := hexTableWritten maxOrder order }

/-- The guard in the Hexahedra constructor: orders at most 0 or above
mMaxOrder throw; the surviving order is kept. -/
def hexConstructorOrder (maxOrder order : ℤ) : Except String ℤ :=
  if order ≤ 0 ∨ maxOrder < order then
    .error "Polynomial order not supported for hex"
  else
    .ok order

/-- True iff an Except value is a success. -/
def exceptOk {e a : Type} : Except e a → Bool
  | .ok _ => true
  | .error _ => false

/-- C5 counterexample: order 11 and order 0 are outside every supported
range, yet the QuadNew accessor returns an (uninitialized) 12-entry vector
instead of rejecting, and the Hexahedra accessor accepts order 0 at the
compiled maximum order 7, returning an unwritten 1-entry vector. -/
theorem c5_accessors_accept_bad_orders :
    quadGllPointsForOrder 11 = { size := 12, written := false } ∧
    quadGllPointsForOrder 0 = { size := 1, written := false } ∧
    hexGllPointsForOrder 7 0 = .ok { size := 1, written := false } := by
  refine ⟨rfl, rfl, rfl⟩

/-- C5 amended: only the Hexahedra constructor rejects exactly the orders
outside the supported interval; the Hexahedra table accessor rejects
exactly the orders above the maximum (accepting nonpositive orders with an
unwritten vector), and the QuadNew accessor never rejects, writing the
table exactly for orders inside 1..10. -/
theorem c5_order_rejection (maxOrder order : ℤ) :
    (exceptOk (hexConstructorOrder maxOrder order)
      = decide (1 ≤ order ∧ order ≤ maxOrder)) ∧
    (exceptOk (hexGllPointsForOrder maxOrder order) = decide (order ≤ maxOrder)) ∧
    (quadGllPointsForOrder order).size = order + 1 ∧
    ((quadGllPointsForOrder order).written = decide (1 ≤ order ∧ order ≤ 10)) ∧
    (hexTableWritten 7 order = decide (1 ≤ order ∧ order ≤ 7)) := by
  refine ⟨?_, ?_, rfl, ?_, ?_⟩
  · by_cases h : order ≤ 0 ∨ maxOrder < order <;>
      simp [hexConstructorOrder, h, exceptOk] <;> omega
  · by_cases h : maxOrder < order <;> simp [hexGllPointsForOrder, h, exceptOk] <;> omega
  · simp only [quadGllPointsForOrder, quadTableWritten]
    by_cases h : 1 ≤ order ∧ order ≤ 10 <;> simp [h] <;> omega
  · simp only [hexTableWritten]
    by_cases h : 1 ≤ order ∧ order ≤ 7 <;> simp [h] <;> omega

/-- Witness for c5_order_rejection at maximum order 7 and order 3. -/
theorem c5_order_rejection_witness :
    exceptOk (hexConstructorOrder 7 3) = decide ((1 : ℤ) ≤ 3 ∧ (3 : ℤ) ≤ 7) ∧
    exceptOk (hexGllPointsForOrder 7 3) = decide ((3 : ℤ) ≤ 7) :=
  ⟨(c5_order_rejection 7 3).1, (c5_order_rejection 7 3).2.1⟩

/-! ## Closure mappings (SquareAcousticOrderFour and Hexahedra) -/

/-- The hard-coded order-4 quad closure table mClosureMapping from the
SquareAcousticOrderFour constructor, row by row. -/
def squareOrderFourClosureMapping : List Nat :=
  [6, 13, 22, 3, 15,
   7, 16, 23, 2, 20,
   8, 17, 19, 1, 24,
   11, 18, 14, 5, 4,
   12, 21, 9, 10, 0]

/-- The Hexahedra constructor closure mClsMap, an integer LinSpaced vector
from 0 to numIntPnt - 1 in numIntPnt steps, listing 0, 1, ..,
numIntPnt - 1. -/
def hexClosureMapping (numIntPnt : Nat) : List Nat :=
  List.range numIntPnt

/-- The hex constructor builds (order + 1) integration points per
direction, so numIntPnt = (order + 1)^3. -/
def hexNumIntPnt (order : Nat) : Nat := (order + 1) ^ 3

/-- C7: the order-4 quad closure table is a permutation of 0..24 (the
element holds 25 nodes), and the identity tensor closure of the hexahedra
is a permutation of 0..numIntPnt - 1 for every order. -/
theorem c7_closure_permutations :
    squareOrderFourClosureMapping.Perm (List.range 25) ∧
    ∀ order : Nat, (hexClosureMapping (hexNumIntPnt order)).Perm
      (List.range (hexNumIntPnt order)) := by
  refine ⟨by decide, fun order => List.Perm.refl _⟩

/-! ## Hexahedra attachSource and attachReceiver -/

/-- A source as the attach functions see it: physical location and the
reference location written at finalization. -/
structure SrcPt : Type where
  locX : ℚ
  locY : ℚ
  locZ : ℚ
  refLoc : Option (ℚ × ℚ × ℚ)

/-- A receiver as the attach functions see it. -/
structure RecPt : Type where
  locX : ℚ
  locY : ℚ
  locZ : ℚ
  refLoc : Option (ℚ × ℚ × ℚ)

/-- The element-side state the attach functions may mutate: the cached
source and receiver lists mSrc and mRec. -/
structure HexAttachState : Type where
  srcs : List SrcPt
  recs : List RecPt

/-- Hexahedra::attachSource. The unique_ptr argument is modelled as an
optional value; a moved-from pointer becomes none. checkHull and
inverseCoordinateTransform are the geometry routines of the concrete hex
shape, passed as parameters. Returns (result, pointer after the call,
state after the call). -/
def hexAttachSource (checkHull : ℚ → ℚ → ℚ → Bool)
    (inverseCoordinateTransform : ℚ → ℚ → ℚ → ℚ × ℚ × ℚ)
    (source : Option SrcPt) (finalize : Bool) (st : HexAttachState) :
    Bool × Option SrcPt × HexAttachState :=
  match source with
  | none => (false, none, st)
  | some s =>
    if checkHull s.locX s.locY s.locZ then
      if !finalize then (true, some s, st)
      else
        (true, none,
          ⟨st.srcs ++ [⟨s.locX, s.locY, s.locZ,
            some (inverseCoordinateTransform s.locX s.locY s.locZ)⟩], st.recs⟩)
    else (false, some s, st)

/-- Hexahedra::attachReceiver, identical in structure on the receiver
list. -/
def hexAttachReceiver (checkHull : ℚ → ℚ → ℚ → Bool)
    (inverseCoordinateTransform : ℚ → ℚ → ℚ → ℚ × ℚ × ℚ)
    (receiver : Option RecPt) (finalize : Bool) (st : HexAttachState) :
    Bool × Option RecPt × HexAttachState :=
  match receiver with
  | none => (false, none, st)
  | some r =>
    if checkHull r.locX r.locY r.locZ then
      if !finalize then (true, some r, st)
      else
        (true, none,
          ⟨st.srcs, st.recs ++ [⟨r.locX, r.locY, r.locZ,
            some (inverseCoordinateTransform r.locX r.locY r.locZ)⟩]⟩)
    else (false, some r, st)

/-- C10: with finalize = false both attach functions only report hull
membership: the returned flag is the checkHull result (false on a null
pointer), the element state is untouched, no reference location is written
and the pointer is not moved from. -/
theorem c10_attach_query_pure (checkHull : ℚ → ℚ → ℚ → Bool)
    (inverseCoordinateTransform : ℚ → ℚ → ℚ → ℚ × ℚ × ℚ)
    (source : Option SrcPt) (receiver : Option RecPt) (st : HexAttachState) :
    hexAttachSource checkHull inverseCoordinateTransform source false st
      = ((match source with
          | none => false
          | some s => checkHull s.locX s.locY s.locZ), source, st) ∧
    hexAttachReceiver checkHull inverseCoordinateTransform receiver false st
      = ((match receiver with
          | none => false
          | some r => checkHull r.locX r.locY r.locZ), receiver, st) := by
  constructor
  · cases source with
    | none => rfl
    | some s =>
      by_cases h : checkHull s.locX s.locY s.locZ <;>
        simp [hexAttachSource, h]
  · cases receiver with
    | none => rfl
    | some r =>
      by_cases h : checkHull r.locX r.locY r.locZ <;>
        simp [hexAttachReceiver, h]

/-! ## Hexahedra delta-function coefficients and test-and-integrate -/

/-- Evaluation of the 1D Lagrange basis polynomial for node j of the node
vector v at the point x. Modelled from the spec: the autogenerated
interpolate routines consumed by Hexahedra::interpolateLagrangePolynomials
tabulate the Lagrange basis on the GLL nodes. -/
def lagrangeEval {m : Nat} (v : Fin m → ℚ) (j : Fin m) (x : ℚ) : ℚ :=
  ∏ k ∈ Finset.univ.erase j, (x - v k) / (v j - v k)

/-- lagrangeEval agrees with the Mathlib Lagrange basis polynomial. -/
theorem lagrangeEval_eq_basis_eval {m : Nat} (v : Fin m → ℚ) (j : Fin m) (x : ℚ) :
    lagrangeEval v j x = (Lagrange.basis Finset.univ v j).eval x := by
  unfold lagrangeEval Lagrange.basis
  rw [Polynomial.eval_prod]
  refine Finset.prod_congr rfl fun k _ => ?_
  simp [Lagrange.basisDivisor, div_eq_mul_inv, mul_comm]

/-- Partition of unity for the 1D Lagrange basis on distinct nodes. -/
theorem sum_lagrangeEval {n : Nat} (v : Fin (n + 1) → ℚ)
    (hv : Function.Injective v) (x : ℚ) :
    ∑ j, lagrangeEval v j x = 1 := by
  have h := Lagrange.sum_basis (v := v) hv.injOn Finset.univ_nonempty
  have h2 := congrArg (Polynomial.eval x) h
  rw [Polynomial.eval_finset_sum] at h2
  simpa [lagrangeEval_eq_basis_eval] using h2

/-- A tensor GLL node index (r, s, t) of a hexahedral element whose three
directions carry m points each (the constructor takes all three from the
same GllPointsForOrder table). The source flattens this to
r + s m + t m m; summation over the flat range is summation over the
triples. -/
abbrev HexNodeIdx (m : Nat) : Type := Fin m × Fin m × Fin m

/-- Hexahedra::interpolateLagrangePolynomials at a reference point:
the tensor product of the three 1D bases. Modelled from the spec for the
autogenerated tables. -/
def hexInterpolateLagrange {m : Nat} (v : Fin m → ℚ) (pnt : ℚ × ℚ × ℚ)
    (i : HexNodeIdx m) : ℚ :=
  lagrangeEval v i.1 pnt.1 * lagrangeEval v i.2.1 pnt.2.1 *
    lagrangeEval v i.2.2 pnt.2.2

/-- Hexahedra::getDeltaFunctionCoefficients: divide the interpolated basis
values by the product of the three directional weights and det J of the
integration point. -/
def hexDeltaFunctionCoefficients {m : Nat} (v wR wS wT : Fin m → ℚ)
    (detJ : HexNodeIdx m → ℚ) (pnt : ℚ × ℚ × ℚ) (i : HexNodeIdx m) : ℚ :=
  hexInterpolateLagrange v pnt i / (wR i.1 * wS i.2.1 * wT i.2.2 * detJ i)

/-- Hexahedra::applyTestAndIntegrate: multiply the field value by det J and
the directional weights; the source reads the s-direction weight table at
the t index (the constructor fills both from the same order table). -/
def hexApplyTestAndIntegrate {m : Nat} (wR wS wT : Fin m → ℚ)
    (detJ : HexNodeIdx m → ℚ) (f : HexNodeIdx m → ℚ) (i : HexNodeIdx m) : ℚ :=
  f i * detJ i * wR i.1 * wS i.2.1 * wS i.2.2

/-- C6: for a reference point inside the element, distinct nodes, positive
weights and positive det J at every integration point, the vector
applyTestAndIntegrate(getDeltaFunctionCoefficients(pnt)) sums to one. All
three weight tables are the one GllIntegrationWeights table, as in the
constructor. -/
theorem c6_delta_reproduction {n : Nat} (v w : Fin (n + 1) → ℚ)
    (detJ : HexNodeIdx (n + 1) → ℚ) (pnt : ℚ × ℚ × ℚ)
    (hv : Function.Injective v) (hw : ∀ j, 0 < w j) (hdet : ∀ i, 0 < detJ i)
    (hin : -1 ≤ pnt.1 ∧ pnt.1 ≤ 1 ∧ -1 ≤ pnt.2.1 ∧ pnt.2.1 ≤ 1 ∧
      -1 ≤ pnt.2.2 ∧ pnt.2.2 ≤ 1) :
    ∑ i : HexNodeIdx (n + 1),
      hexApplyTestAndIntegrate w w w detJ
        (hexDeltaFunctionCoefficients v w w w detJ pnt) i = 1 := by
  have key : ∀ i : HexNodeIdx (n + 1),
      hexApplyTestAndIntegrate w w w detJ
        (hexDeltaFunctionCoefficients v w w w detJ pnt) i
        = hexInterpolateLagrange v pnt i := by
    intro i
    have h1 : w i.1 ≠ 0 := ne_of_gt (hw i.1)
    have h2 : w i.2.1 ≠ 0 := ne_of_gt (hw i.2.1)
    have h3 : w i.2.2 ≠ 0 := ne_of_gt (hw i.2.2)
    have h4 : detJ i ≠ 0 := ne_of_gt (hdet i)
    unfold hexApplyTestAndIntegrate hexDeltaFunctionCoefficients
    field_simp
    ring
  rw [Finset.sum_congr rfl (fun i _ => key i)]
  unfold hexInterpolateLagrange
  have hx := sum_lagrangeEval v hv pnt.1
  have hy := sum_lagrangeEval v hv pnt.2.1
  have hz := sum_lagrangeEval v hv pnt.2.2
  rw [Fintype.sum_prod_type]
  simp_rw [Fintype.sum_prod_type, mul_assoc, ← Finset.mul_sum, hz, mul_one, hy,
    mul_one]
  exact hx

/-- Witness for c6_delta_reproduction: a two-node direction with nodes -1
and 1, unit weights, unit det J, and the source at the element center. -/
theorem c6_delta_reproduction_witness :
    Function.Injective (![(-1 : ℚ), 1]) ∧
    (∀ j, (0 : ℚ) < ![(1 : ℚ), 1] j) ∧
    (∀ i : HexNodeIdx 2, (0 : ℚ) < (fun _ : HexNodeIdx 2 => (1 : ℚ)) i) ∧
    ∑ i : HexNodeIdx 2,
      hexApplyTestAndIntegrate ![(1 : ℚ), 1] ![(1 : ℚ), 1] ![(1 : ℚ), 1]
        (fun _ => 1)
        (hexDeltaFunctionCoefficients ![(-1 : ℚ), 1] ![(1 : ℚ), 1] ![(1 : ℚ), 1]
          ![(1 : ℚ), 1] (fun _ => 1) (0, 0, 0)) i = 1 := by
  refine ⟨by decide, by decide, fun i => by norm_num, ?_⟩
  exact c6_delta_reproduction (n := 1) ![(-1 : ℚ), 1] ![(1 : ℚ), 1] (fun _ => 1)
    (0, 0, 0) (by decide) (by decide) (fun i => by norm_num) (by norm_num)

/-! ## Triangular acoustic stiffness (AcousticTri.cpp over Triangle)

The Triangle shape operators are declared in Triangle.h; their bodies are
modelled from the spec. P is the node count, D l p j is the reference
derivative table (l = 0 the r-derivative, l = 1 the s-derivative) of basis
function j at integration point p, invJac the affine inverse Jacobian of
the element, detJ its constant determinant, w the quadrature weights and
vp the P-wave speed interpolated to the integration points. -/

/-- Modelled from the spec: the physical gradient of basis function j at
integration point p, the reference derivative tables rotated by the affine
inverse Jacobian. -/
def triGradPhi {P : Nat} (D : Fin 2 → Fin P → Fin P → ℚ)
    (invJac : Fin 2 → Fin 2 → ℚ) (j p : Fin P) (k : Fin 2) : ℚ :=
  ∑ l, invJac k l * D l p j

/-- Modelled from the spec: Triangle::computeGradient applies the dense
reference derivative tables to the field and rotates by the affine inverse
Jacobian. -/
def triComputeGradient {P : Nat} (D : Fin 2 → Fin P → Fin P → ℚ)
    (invJac : Fin 2 → Fin 2 → ℚ) (u : Fin P → ℚ) (p : Fin P) (k : Fin 2) : ℚ :=
  ∑ l, invJac k l * (∑ j, D l p j * u j)

/-- Modelled from the spec: Triangle::applyGradTestAndIntegrate computes
the integral of grad phi i dot F with the GLL quadrature. -/
def triApplyGradTestAndIntegrate {P : Nat} (D : Fin 2 → Fin P → Fin P → ℚ)
    (invJac : Fin 2 → Fin 2 → ℚ) (w : Fin P → ℚ) (detJ : ℚ)
    (F : Fin P → Fin 2 → ℚ) (i : Fin P) : ℚ :=
  ∑ p, w p * detJ * (∑ k, triGradPhi D invJac i p k * F p k)

/-- Modelled from the spec: Triangle::buildStiffnessMatrix(velocity)
pre-forms the dense K with entries K i j equal to the quadrature of
c squared times grad phi i dot grad phi j. -/
def triBuildStiffnessMatrix {P : Nat} (D : Fin 2 → Fin P → Fin P → ℚ)
    (invJac : Fin 2 → Fin 2 → ℚ) (w : Fin P → ℚ) (detJ : ℚ)
    (vp : Fin P → ℚ) (i j : Fin P) : ℚ :=
  ∑ p, w p * detJ * vp p ^ 2 *
    (∑ k, triGradPhi D invJac i p k * triGradPhi D invJac j p k)

/-- AcousticTri::computeStress: multiply each strain column componentwise
by the squared interpolated VP. -/
def acousticTriComputeStress {P : Nat} (vp : Fin P → ℚ)
    (strain : Fin P → Fin 2 → ℚ) (p : Fin P) (k : Fin 2) : ℚ :=
  vp p ^ 2 * strain p k

/-- AcousticTri::computeStiffnessTerm: multiply the precomputed element
stiffness matrix (buildStiffnessMatrix of the VP nodal values, formed in
prepareStiffness) against the element-local field. -/
def acousticTriComputeStiffnessTerm {P : Nat} (D : Fin 2 → Fin P → Fin P → ℚ)
    (invJac : Fin 2 → Fin 2 → ℚ) (w : Fin P → ℚ) (detJ : ℚ)
    (vp : Fin P → ℚ) (u : Fin P → ℚ) (i : Fin P) : ℚ :=
  ∑ j, triBuildStiffnessMatrix D invJac w detJ vp i j * u j

/-- The gradient of a field is the field-weighted sum of basis gradients. -/
theorem triComputeGradient_eq_sum {P : Nat} (D : Fin 2 → Fin P → Fin P → ℚ)
    (invJac : Fin 2 → Fin 2 → ℚ) (u : Fin P → ℚ) (p : Fin P) (k : Fin 2) :
    triComputeGradient D invJac u p k = ∑ j, triGradPhi D invJac j p k * u j := by
  unfold triComputeGradient triGradPhi
  simp_rw [Finset.mul_sum, Finset.sum_mul]
  rw [Finset.sum_comm]
  refine Finset.sum_congr rfl fun j _ => Finset.sum_congr rfl fun l _ => by ring

/-- C8: the dense-matrix path of AcousticTri::computeStiffnessTerm agrees
with the operator composition applyGradTestAndIntegrate of computeStress of
computeGradient for every element-local field. -/
theorem c8_stiffness_refinement {P : Nat} (D : Fin 2 → Fin P → Fin P → ℚ)
    (invJac : Fin 2 → Fin 2 → ℚ) (w : Fin P → ℚ) (detJ : ℚ)
    (vp : Fin P → ℚ) (u : Fin P → ℚ) (i : Fin P) :
    acousticTriComputeStiffnessTerm D invJac w detJ vp u i
      = triApplyGradTestAndIntegrate D invJac w detJ
          (acousticTriComputeStress vp (triComputeGradient D invJac u)) i := by
  unfold acousticTriComputeStiffnessTerm triBuildStiffnessMatrix
    triApplyGradTestAndIntegrate acousticTriComputeStress
  simp_rw [triComputeGradient_eq_sum, Finset.sum_mul, Finset.mul_sum]
  conv_lhs => rw [Finset.sum_comm]
  refine Finset.sum_congr rfl fun p _ => ?_
  simp_rw [Finset.sum_mul]
  conv_lhs => rw [Finset.sum_comm]
  refine Finset.sum_congr rfl fun k _ => Finset.sum_congr rfl fun j _ => by ring
